import Mathlib

/-!
Verification of the ptf dataplane engine (`src/ptf/dataplane.py`).

Shallow embedding conventions:
* a raw frame is a byte string, modelled as `List Nat`;
* timestamps (Python wall-clock floats, only ever compared) are modelled
  as `Int`;
* Python dicts are modelled as association lists in insertion order
  (`assocGet` returns the first binding, `assocSet` overwrites in place or
  appends, `assocDel` removes the first binding) — a Python dict never
  holds a duplicate key;
* a Python exception escaping a code path is modelled with `Except`: the
  error constructor names the exception and no state is mutated by the
  aborted statement.
-/

/-- Bytes of a frame (`bytes` in Python). -/
abbrev Frame := List Nat

/-- Receive timestamp.  Python uses `time.time()` floats; the engine only
ever compares them, so a linearly ordered `Int` is used. -/
abbrev Timestamp := Int

/-- A port key `(device_number, port_number)`. -/
abbrev PortId := Nat × Nat

/-- One per-port queue entry: the code appends `(pkt, timestamp)`
(`dataplane.py`, `DataPlane.run`). -/
abbrev Entry := Frame × Timestamp

/-- An opaque mask object: the engine only calls `is_valid()` and
`pkt_match(pkt)` on it (`mask.Mask`). -/
structure Mask where
  is_valid : Bool
  pkt_match : Frame → Bool

/-- The `exp_pkt` argument of `match_exp_pkt`: either a `mask.Mask`
object or anything convertible to `bytes`. -/
inductive ExpPkt where
  | maskExp (m : Mask)
  | rawExp (e : Frame)

/-- `match_exp_pkt(exp_pkt, pkt)` from `dataplane.py`:
a mask delegates to `is_valid`/`pkt_match`; otherwise the byte strings
are compared, truncating `pkt` to `len(exp_pkt)` when `len(exp_pkt) < 60`. -/
def match_exp_pkt (exp_pkt : ExpPkt) (pkt : Frame) : Bool :=
  match exp_pkt with
  | .maskExp m => if ¬ m.is_valid then false else m.pkt_match pkt
  | .rawExp e =>
      let p := if e.length < 60 then pkt.take e.length else pkt
      e = p

/-- Python exceptions that can escape the modelled code paths. -/
inductive PyError where
  | keyError
  | indexError
  | assertionError
  | structError
  | typeError
deriving DecidableEq

/-! Association lists model Python dicts in insertion order: lookup and
deletion act on the first binding, assignment overwrites in place or
appends a fresh binding.  A real dict never holds a duplicate key. -/

/-- `d[k]` lookup returning `none` on a missing key. -/
def assocGet {α β : Type} [DecidableEq α] (l : List (α × β)) (k : α) : Option β :=
  match l with
  | [] => none
  | kv :: rest => if kv.1 = k then some kv.2 else assocGet rest k

/-- `d[k] = v`: overwrite the binding in place, or append a new one. -/
def assocSet {α β : Type} [DecidableEq α] (l : List (α × β)) (k : α) (v : β) : List (α × β) :=
  match l with
  | [] => [(k, v)]
  | kv :: rest => if kv.1 = k then (k, v) :: rest else kv :: assocSet rest k v

/-- `del d[k]`: remove the (first) binding of `k`. -/
def assocDel {α β : Type} [DecidableEq α] (l : List (α × β)) (k : α) : List (α × β) :=
  match l with
  | [] => []
  | kv :: rest => if kv.1 = k then rest else kv :: assocDel rest k

/-- `defaultdict(int)` read: a missing key counts as 0
(`rx_counters` / `tx_counters` in `DataPlane.__init__`). -/
def rxGet (l : List (PortId × Nat)) (k : PortId) : Nat :=
  (assocGet l k).getD 0

/-- Key insertion for the port registry `self.ports` (dict assignment:
an existing key keeps its position, a new key is appended). -/
def keyInsert (l : List PortId) (k : PortId) : List PortId :=
  if k ∈ l then l else l ++ [k]

/-- Key deletion for the port registry (`del self.ports[port_id]`). -/
def keyDel (l : List PortId) (k : PortId) : List PortId :=
  match l with
  | [] => []
  | k' :: rest => if k' = k then rest else k' :: keyDel rest k

/-- The `DataPlane` shared state guarded by `self.cvar`: the port
registry (backend objects are opaque, only the keys matter here), the
per-port packet queues, and the rx/tx counters. -/
structure DPState where
  ports : List PortId
  packet_queues : List (PortId × List Entry)
  rx_counters : List (PortId × Nat)
  tx_counters : List (PortId × Nat)
deriving DecidableEq

/-- The fresh state built by `DataPlane.__init__`. -/
def dpInit : DPState := ⟨[], [], [], []⟩

/-- The enqueue path of one capture-loop iteration (`DataPlane.run`,
body of the `for sel in sel_in` loop after `recv` returned a frame):
`queue = self.packet_queues[(device_number, port_number)]` raises
`KeyError` on a missing key; with `len(queue) >= self.qlen` the loop
pops the head first (`queue.pop(0)` raises `IndexError` on an empty
list, reachable only for `qlen = 0`); then the frame is appended and
the rx counter incremented. -/
def captureEnqueue (qlen : Nat) (st : DPState) (k : PortId) (pkt : Frame)
    (ts : Timestamp) : Except PyError DPState :=
  match assocGet st.packet_queues k with
  | none => .error .keyError
  | some queue =>
    if qlen ≤ queue.length then
      match queue with
      | [] => .error .indexError
      | _ :: qtail =>
        .ok { st with
          packet_queues := assocSet st.packet_queues k (qtail ++ [(pkt, ts)]),
          rx_counters := assocSet st.rx_counters k (rxGet st.rx_counters k + 1) }
    else
      .ok { st with
        packet_queues := assocSet st.packet_queues k (queue ++ [(pkt, ts)]),
        rx_counters := assocSet st.rx_counters k (rxGet st.rx_counters k + 1) }

/-- `DataPlane.port_add`: unconditionally installs a backend for the key
and an empty queue (the backend object itself is opaque; only the
registry key is modelled). -/
def port_add (st : DPState) (k : PortId) : DPState :=
  { st with
    ports := keyInsert st.ports k,
    packet_queues := assocSet st.packet_queues k [] }

/-- `DataPlane.port_remove`: returns `false` and changes nothing when the
key is absent, else deletes the backend and the queue. -/
def port_remove (st : DPState) (k : PortId) : Bool × DPState :=
  if k ∈ st.ports then
    (true,
      { st with
        ports := keyDel st.ports k,
        packet_queues := assocDel st.packet_queues k })
  else (false, st)

/-- `DataPlane.flush`: reassigns every queue in `self.packet_queues`
to `[]`. -/
def flush (st : DPState) : DPState :=
  { st with packet_queues := st.packet_queues.map (fun kv => (kv.1, [])) }

/-- The events that mutate the registry/queue/counter state. -/
inductive DPEvent where
  | portAdd (k : PortId)
  | portRemove (k : PortId)
  | flushEv
  | arrival (k : PortId) (pkt : Frame) (ts : Timestamp)

/-- One event step.  An exception raised inside the capture loop escapes
`run()` without mutating the shared state, so the failed `arrival`
leaves the state unchanged (and in reality kills the capture thread). -/
def dpStep (qlen : Nat) (st : DPState) (ev : DPEvent) : DPState :=
  match ev with
  | .portAdd k => port_add st k
  | .portRemove k => (port_remove st k).2
  | .flushEv => flush st
  | .arrival k pkt ts =>
    match captureEnqueue qlen st k pkt ts with
    | .ok st' => st'
    | .error _ => st

/-- Run a sequence of events from the fresh state. -/
def dpRun (qlen : Nat) (evs : List DPEvent) : DPState :=
  evs.foldl (dpStep qlen) dpInit

/-- Scenario harness for the overflow claim: register `k` on a fresh
engine, then let the capture loop enqueue the frames `fs` in order. -/
def arrivalsRun (qlen : Nat) (k : PortId) (fs : List Entry) : DPState :=
  fs.foldl (fun s ft => dpStep qlen s (.arrival k ft.1 ft.2))
    (dpStep qlen dpInit (.portAdd k))

/-- Strengthened state invariant: no duplicate keys (a dict property),
registry keys and queue keys coincide, queue lengths are capped by
`qlen`, and each rx counter dominates its queue's length. -/
def dpInvAux (qlen : Nat) (st : DPState) : Prop :=
  (st.packet_queues.map Prod.fst).Nodup ∧
  st.ports.Nodup ∧
  (∀ k, k ∈ st.ports ↔ (assocGet st.packet_queues k).isSome) ∧
  (∀ kv ∈ st.packet_queues, kv.2.length ≤ qlen) ∧
  (∀ k q, assocGet st.packet_queues k = some q → q.length ≤ rxGet st.rx_counters k)

/-! The poll/match engine (`DataPlane.oldest_port_number`,
`DataPlane.packets`, `DataPlane.poll`). -/

/-- `DataPlane.POLL_MAX_RECENT_PACKETS`. -/
def POLL_MAX_RECENT_PACKETS : Nat := 3

/-- `deque(maxlen=3).append`: keeps the most recent 3 entries. -/
def ringPush (ring : List Frame) (pkt : Frame) : List Frame :=
  if ring.length < POLL_MAX_RECENT_PACKETS then ring ++ [pkt]
  else ring.drop 1 ++ [pkt]

/-- Python truthiness of an `exp_pkt` value: an empty byte string is
falsy, everything else here (non-empty bytes, mask objects) is truthy.
`poll`s grab loop tests `if not exp_pkt or match_exp_pkt(exp_pkt, pkt)`. -/
def pyFalsy : ExpPkt → Bool
  | .rawExp [] => true
  | _ => false

/-- The grab-loop match condition `not exp_pkt or match_exp_pkt(exp_pkt, pkt)`
(with `exp_pkt=None` modelled as `none`). -/
def expMatches (exp : Option ExpPkt) (pkt : Frame) : Bool :=
  match exp with
  | none => true
  | some e => pyFalsy e || match_exp_pkt e pkt

/-- The scan inside `DataPlane.oldest_port_number`: `min_time` starts at
`float("inf")` (modelled as accumulator `none`) and each non-empty queue
of the device whose head timestamp is strictly smaller replaces the
accumulator. -/
def oldestAux (device : Nat) (acc : Option (Nat × Timestamp)) :
    List (PortId × List Entry) → Option (Nat × Timestamp)
  | [] => acc
  | kv :: rest =>
    let acc' :=
      if kv.1.1 = device then
        match kv.2 with
        | [] => acc
        | e :: _ =>
          match acc with
          | none => some (kv.1.2, e.2)
          | some pt => if e.2 < pt.2 then some (kv.1.2, e.2) else acc
      else acc
    oldestAux device acc' rest

/-- `DataPlane.oldest_port_number(device)`: the port number whose queue
head has the smallest timestamp, or `None` when no queue of the device
holds a packet. -/
def oldest_port_number (device : Nat) (qs : List (PortId × List Entry)) : Option Nat :=
  (oldestAux device none qs).map Prod.fst

/-- `queue.pop(0)` on the queue object bound to key `k`: the first
binding of `k` loses its head element. -/
def popHead (qs : List (PortId × List Entry)) (k : PortId) :
    List (PortId × List Entry) :=
  match qs with
  | [] => []
  | kv :: rest => if kv.1 = k then (kv.1, kv.2.drop 1) :: rest else kv :: popHead rest k

/-- The queue access of one `DataPlane.packets` iteration once the port
`rcv_port` is chosen: `self.packet_queues[(device, rcv_port)]` raises
`KeyError` on a missing key, an empty queue stops the generator, else
the head is popped and yielded. -/
def packetsFetch (device p : Nat) (qs : List (PortId × List Entry)) :
    Except PyError (Option ((Nat × Frame × Timestamp) × List (PortId × List Entry))) :=
  match assocGet qs (device, p) with
  | none => .error .keyError
  | some [] => .ok none
  | some ((pkt, t) :: _) => .ok (some ((p, pkt, t), popHead qs (device, p)))

/-- One iteration of the `DataPlane.packets` generator: choose the port
(`oldest_port_number` when `port` was not given; `None` from it stops
the generator), then access the queue. -/
def packetsStep (device : Nat) (portArg : Option Nat)
    (qs : List (PortId × List Entry)) :
    Except PyError (Option ((Nat × Frame × Timestamp) × List (PortId × List Entry))) :=
  match portArg with
  | some p => packetsFetch device p qs
  | none =>
    match oldest_port_number device qs with
    | none => .ok none
    | some p => packetsFetch device p qs

/-- Total number of buffered entries across all queues. -/
def totalSize (qs : List (PortId × List Entry)) : Nat :=
  (qs.map (fun kv => kv.2.length)).sum

/-- Running the `packets` generator to exhaustion: the yielded
`(port, packet, time)` triples in order, and the queue state left
behind.  Each successful step removes exactly one buffered entry, so
`totalSize qs` steps of fuel always suffice. -/
def packetsDrain (device : Nat) (portArg : Option Nat) :
    Nat → List (PortId × List Entry) →
    Except PyError (List (Nat × Frame × Timestamp) × List (PortId × List Entry))
  | 0, qs => .ok ([], qs)
  | fuel + 1, qs =>
    match packetsStep device portArg qs with
    | .error e => .error e
    | .ok none => .ok ([], qs)
    | .ok (some (x, qs')) =>
      match packetsDrain device portArg fuel qs' with
      | .error e => .error e
      | .ok (xs, qsf) => .ok (x :: xs, qsf)

/-- `DataPlane.PollSuccess`: tuple `(device, port, packet, time)` plus
the original expected packet. -/
structure PollSuccessS where
  device : Nat
  port : Nat
  packet : Frame
  time : Timestamp
  expected_packet : Option ExpPkt

/-- `DataPlane.PollFailure`: all four tuple fields are `None`; carries
the expected packet, the recent-packet ring and the examined count. -/
structure PollFailureS where
  device : Option Nat
  port : Option Nat
  packet : Option Frame
  time : Option Timestamp
  expected_packet : Option ExpPkt
  recent_packets : List Frame
  packet_count : Nat

/-- `DataPlane.PollFailure.__new__`: the `PollResult` tuple fields are
filled with `None, None, None, None`. -/
def mkPollFailure (expected_packet : Option ExpPkt) (recent : List Frame)
    (count : Nat) : PollFailureS :=
  { device := none, port := none, packet := none, time := none,
    expected_packet := expected_packet, recent_packets := recent,
    packet_count := count }

/-- The result of `DataPlane.poll`. -/
inductive PollResultS where
  | success (s : PollSuccessS)
  | failure (f : PollFailureS)

/-- The nested `grab` function of `DataPlane.poll`: iterate over the
`packets` generator; every examined packet is appended to the
`recent_packets` ring and counted; packets failing a filter or the
expected-packet match are discarded; the first passing packet is
returned as a `PollSuccess` (with the rest of the generator abandoned,
i.e. the remaining queue state kept). -/
def grab (device : Nat) (portArg : Option Nat) (exp : Option ExpPkt)
    (filters : List (Frame → Bool)) :
    Nat → List (PortId × List Entry) → List Frame → Nat →
    Except PyError (Option PollSuccessS × List (PortId × List Entry) × List Frame × Nat)
  | 0, qs, ring, cnt => .ok (none, qs, ring, cnt)
  | fuel + 1, qs, ring, cnt =>
    match packetsStep device portArg qs with
    | .error e => .error e
    | .ok none => .ok (none, qs, ring, cnt)
    | .ok (some ((p, pkt, t), qs')) =>
      let ring' := ringPush ring pkt
      let cnt' := cnt + 1
      if filters.all (fun f => f pkt) then
        if expMatches exp pkt then
          .ok (some ⟨device, p, pkt, t, exp⟩, qs', ring', cnt')
        else grab device portArg exp filters fuel qs' ring' cnt'
      else grab device portArg exp filters fuel qs' ring' cnt'

/-- `DataPlane.poll` at the moment the timed wait expires: the final
`grab` pass runs over the queue state; finding nothing it returns the
structured `PollFailure` built from the grab log (the repeated
re-drains under the condition variable each run this same `grab`; this
models the deciding pass over the frames present at the deadline). -/
def poll (device : Nat) (portArg : Option Nat) (exp : Option ExpPkt)
    (filters : List (Frame → Bool)) (qs : List (PortId × List Entry)) :
    Except PyError (PollResultS × List (PortId × List Entry)) :=
  match grab device portArg exp filters (totalSize qs) qs [] 0 with
  | .error e => .error e
  | .ok (some s, qs', _, _) => .ok (.success s, qs')
  | .ok (none, qs', ring, cnt) => .ok (.failure (mkPollFailure exp ring cnt), qs')

/-- Per-queue timestamp monotonicity for one device (spec invariant
"timestamps within one queue are nondecreasing"). -/
def queueSorted (device : Nat) (qs : List (PortId × List Entry)) : Prop :=
  ∀ kv ∈ qs, kv.1.1 = device → List.Chain' (fun a b : Entry => a.2 ≤ b.2) kv.2

/-- `t` bounds every queue-head timestamp of the device from below. -/
def headLB (device : Nat) (t : Timestamp) (qs : List (PortId × List Entry)) : Prop :=
  ∀ kv ∈ qs, kv.1.1 = device →
    ∀ pkt' t' rest', kv.2 = (pkt', t') :: rest' → t ≤ t'

/-! The virtual-transport packet source (`DataPlanePacketSourceNN`).
Wire integers are signed 32-bit little-endian; a message is its raw byte
string.  The condition-variable notification inside the cache dispatch
is concurrency signalling and has no state content to model. -/

/-- `DataPlanePacketSourceNN` message-type and status constants. -/
def MSG_TYPE_PACKET_OUT : Int := 4

/-- `MSG_TYPE_INFO_REP` message-type constant. -/
def MSG_TYPE_INFO_REP : Int := 6

/-- `MSG_INFO_TYPE_HWADDR` info-kind constant. -/
def MSG_INFO_TYPE_HWADDR : Int := 0

/-- `MSG_INFO_TYPE_CTRS` info-kind constant. -/
def MSG_INFO_TYPE_CTRS : Int := 1

/-- `MSG_INFO_STATUS_SUCCESS` reply-status constant. -/
def MSG_INFO_STATUS_SUCCESS : Int := 0

/-- Signed 32-bit little-endian value of four bytes (two's complement). -/
def i32val (b0 b1 b2 b3 : Nat) : Int :=
  let n := b0 + 256 * b1 + 65536 * b2 + 16777216 * b3
  if n < 2147483648 then (n : Int) else (n : Int) - 4294967296

/-- `struct.unpack_from("<i", msg)` followed by slicing the 4 bytes off:
the decoded value and the remaining bytes, or a `struct.error` (`none`)
when fewer than 4 bytes remain. -/
def decodeI32LE : List Nat → Option (Int × List Nat)
  | b0 :: b1 :: b2 :: b3 :: rest => some (i32val b0 b1 b2 b3, rest)
  | _ => none

/-- Mutable state of one `DataPlanePacketSourceNN`: the active port set
and the MAC/counter caches fed by INFO_REP dispatch. -/
structure NNState where
  ports : List Int
  mac_addresses : List (Int × Option (List Nat))
  nn_counters : List (Int × (Int × Int))
deriving DecidableEq

/-- `DataPlanePacketSourceNN.__handle_info_rep`: unpack the status
int32 (a short payload is a `struct.error`); on a non-success status
the payload becomes `None`; a hardware-address reply caches the
payload, a counters reply unpacks `<ii>` from it — which raises
`TypeError` when the payload is `None` and `struct.error` when it is
too short; any other info kind caches nothing. -/
def handle_info_rep (port_number info_type : Int) (msg : List Nat)
    (st : NNState) : Except PyError NNState :=
  match decodeI32LE msg with
  | none => .error .structError
  | some (status, rest) =>
    let payload : Option (List Nat) :=
      if status ≠ MSG_INFO_STATUS_SUCCESS then none else some rest
    if info_type = MSG_INFO_TYPE_HWADDR then
      .ok { st with mac_addresses := assocSet st.mac_addresses port_number payload }
    else if info_type = MSG_INFO_TYPE_CTRS then
      match payload with
      | none => .error .typeError
      | some pl =>
        match decodeI32LE pl with
        | none => .error .structError
        | some (rx, pl2) =>
          match decodeI32LE pl2 with
          | none => .error .structError
          | some (tx, _) =>
            .ok { st with nn_counters := assocSet st.nn_counters port_number (rx, tx) }
    else .ok st

/-- `DataPlanePacketSourceNN.recv` applied to the one message read from
the socket: unpack the `<iii>` header, return the no-data sentinel for
an unregistered port, dispatch INFO_REP and return the sentinel, assert
the type is PACKET_OUT and the payload length matches `more`, and
return `(device, port, frame, now)`. -/
def nnRecv (device_number : Nat) (st : NNState) (msg : List Nat)
    (now : Timestamp) :
    Except PyError (Option (Nat × Int × List Nat × Timestamp) × NNState) :=
  match decodeI32LE msg with
  | none => .error .structError
  | some (msg_type, r1) =>
    match decodeI32LE r1 with
    | none => .error .structError
    | some (port_number, r2) =>
      match decodeI32LE r2 with
      | none => .error .structError
      | some (more, body) =>
        if port_number ∉ st.ports then .ok (none, st)
        else if msg_type = MSG_TYPE_INFO_REP then
          (handle_info_rep port_number more body st).map (fun st' => (none, st'))
        else if msg_type ≠ MSG_TYPE_PACKET_OUT then .error .assertionError
        else if (body.length : Int) ≠ more then .error .assertionError
        else .ok (some (device_number, port_number, body, now), st)

/-! ## C1 / C10 : `match_exp_pkt` -/

/-- C1: masks delegate (invalid never matches); short expected compares a
prefix; long expected is exact equality; the match is reflexive. -/
theorem match_exp_pkt_spec :
    (∀ (m : Mask) (p : Frame),
      (m.is_valid = false → match_exp_pkt (.maskExp m) p = false) ∧
      (m.is_valid = true → match_exp_pkt (.maskExp m) p = m.pkt_match p)) ∧
    (∀ (e p : Frame), e.length < 60 →
      (match_exp_pkt (.rawExp e) p = true ↔ e = p.take e.length)) ∧
    (∀ (e p : Frame), 60 ≤ e.length →
      (match_exp_pkt (.rawExp e) p = true ↔ e = p)) ∧
    (∀ x : Frame, match_exp_pkt (.rawExp x) x = true) := by
  refine ⟨fun m p => ⟨fun h => ?_, fun h => ?_⟩, fun e p h => ?_, fun e p h => ?_,
    fun x => ?_⟩
  · simp [match_exp_pkt, h]
  · simp [match_exp_pkt, h]
  · simp [match_exp_pkt, h]
  · simp [match_exp_pkt, Nat.not_lt.mpr h]
  · by_cases h : x.length < 60 <;> simp [match_exp_pkt, h]

/-- Witness for C1 at concrete inputs. -/
theorem match_exp_pkt_spec_witness :
    match_exp_pkt (.rawExp [170, 170]) [170, 170, 0, 0] = true ∧
    match_exp_pkt (.rawExp (List.replicate 60 7)) (List.replicate 60 7 ++ [0]) = false := by
  have h := match_exp_pkt_spec
  constructor
  · exact (h.2.1 [170, 170] [170, 170, 0, 0] (by decide)).mpr (by decide)
  · have h60 : (List.replicate 60 7 : Frame).length = 60 := by simp
    have := h.2.2.1 (List.replicate 60 7) (List.replicate 60 7 ++ [0]) (le_of_eq h60.symm)
    by_contra hc
    simp only [Bool.not_eq_false] at hc
    have heq := this.mp hc
    have : (List.replicate 60 7 : Frame).length = (List.replicate 60 7 ++ [0] : Frame).length := by
      rw [← heq]
    simp at this

/-- C10: a received frame strictly shorter than the expected bytes never
matches, in both the short (< 60) and long (≥ 60) regimes. -/
theorem match_exp_pkt_short_pkt (e p : Frame) (h : p.length < e.length) :
    match_exp_pkt (.rawExp e) p = false := by
  by_cases h60 : e.length < 60
  · simp only [match_exp_pkt, h60, if_pos, decide_eq_false_iff_not]
    intro heq
    have : e.length = (p.take e.length).length := by rw [← heq]
    simp [List.length_take] at this
    omega
  · simp only [match_exp_pkt, h60, if_neg, decide_eq_false_iff_not]
    intro heq
    subst heq
    omega

/-- Witness for C10 at a concrete input. -/
theorem match_exp_pkt_short_pkt_witness :
    [1, 2, 3].length < [1, 2, 3, 4].length ∧
      match_exp_pkt (.rawExp [1, 2, 3, 4]) [1, 2, 3] = false :=
  ⟨by decide, match_exp_pkt_short_pkt [1, 2, 3, 4] [1, 2, 3] (by decide)⟩

/-! ## Association-list helper lemmas -/

theorem assocGet_assocSet_self {β : Type} (l : List (PortId × β)) (k : PortId) (v : β) :
    assocGet (assocSet l k v) k = some v := by
  induction l with
  | nil => simp [assocGet, assocSet]
  | cons kv rest ih =>
    by_cases h : kv.1 = k
    · simp [assocGet, assocSet, h]
    · simp [assocGet, assocSet, h, ih]

theorem assocGet_assocSet_ne {β : Type} (l : List (PortId × β)) {k k' : PortId} (v : β)
    (h : k' ≠ k) : assocGet (assocSet l k v) k' = assocGet l k' := by
  induction l with
  | nil => simp [assocGet, assocSet, Ne.symm h]
  | cons kv rest ih =>
    by_cases hk : kv.1 = k
    · subst hk
      simp [assocGet, assocSet, Ne.symm h]
    · simp only [assocSet, if_neg hk]
      by_cases hk' : kv.1 = k'
      · simp [assocGet, hk']
      · simp [assocGet, hk', ih]

/-! ## C9 : `flush` empties queues and changes nothing else -/

/-- C9: `flush` sets every queue to the empty list, keeps the set of
queue keys, and leaves the registry and both counter maps untouched. -/
theorem flush_spec (st : DPState) :
    (flush st).packet_queues.map Prod.fst = st.packet_queues.map Prod.fst ∧
    (∀ kv ∈ (flush st).packet_queues, kv.2 = ([] : List Entry)) ∧
    (flush st).ports = st.ports ∧
    (flush st).rx_counters = st.rx_counters ∧
    (flush st).tx_counters = st.tx_counters := by
  refine ⟨?_, ?_, rfl, rfl, rfl⟩
  · simp [flush]
  · intro kv hkv
    simp only [flush, List.mem_map] at hkv
    obtain ⟨kv', _, rfl⟩ := hkv
    rfl

/-! ## C6 : `port_add` on an existing key -/

/-- C6 counterexample: with `(0, 1)` already registered (and its queue
non-empty), `port_add` does not fail — it succeeds and installs a fresh
empty queue, overwriting the old one. -/
theorem port_add_existing_no_failure :
    (0, 1) ∈ (⟨[(0, 1)], [((0, 1), [([9], 1)])], [((0, 1), 3)], []⟩ : DPState).ports ∧
    port_add (⟨[(0, 1)], [((0, 1), [([9], 1)])], [((0, 1), 3)], []⟩ : DPState) (0, 1)
      = ⟨[(0, 1)], [((0, 1), [])], [((0, 1), 3)], []⟩ := by
  constructor
  · decide
  · rfl

/-- C6 amended: `port_add` performs no existing-key check; for every
state it installs the key with an empty queue (replacing any previous
registration), leaves the counters alone, and leaves every other key's
registration and queue unchanged. -/
theorem port_add_always_installs (st : DPState) (k : PortId) :
    k ∈ (port_add st k).ports ∧
    assocGet (port_add st k).packet_queues k = some [] ∧
    (port_add st k).rx_counters = st.rx_counters ∧
    (port_add st k).tx_counters = st.tx_counters ∧
    (∀ k', k' ≠ k →
      ((k' ∈ (port_add st k).ports ↔ k' ∈ st.ports) ∧
        assocGet (port_add st k).packet_queues k' = assocGet st.packet_queues k')) := by
  refine ⟨?_, assocGet_assocSet_self _ _ _, rfl, rfl, fun k' h => ⟨?_, ?_⟩⟩
  · simp only [port_add, keyInsert]
    split
    · assumption
    · simp
  · simp only [port_add, keyInsert]
    split
    · rfl
    · simp [h]
  · exact assocGet_assocSet_ne _ _ h

/-- Witness for the amended C6 at concrete inputs. -/
theorem port_add_always_installs_witness :
    ((0, 2) : PortId) ≠ (0, 1) ∧
    assocGet (port_add (⟨[(0, 1)], [((0, 1), [([9], 1)])], [], []⟩ : DPState)
        (0, 1)).packet_queues (0, 2)
      = assocGet (⟨[(0, 1)], [((0, 1), [([9], 1)])], [], []⟩ : DPState).packet_queues (0, 2) :=
  ⟨by decide,
    ((port_add_always_installs ⟨[(0, 1)], [((0, 1), [([9], 1)])], [], []⟩ (0, 1)).2.2.2.2
      (0, 2) (by decide)).2⟩

/-! ## C5 : capture loop and a just-removed port -/

/-- C5 counterexample: a frame for a key with no queue makes the
capture-loop enqueue path raise `KeyError` (the unguarded
`self.packet_queues[(device_number, port_number)]` lookup), instead of
silently dropping the frame and continuing. -/
theorem capture_missing_key_raises :
    captureEnqueue 100 dpInit (0, 1) [1, 2] 0 = .error .keyError := rfl

/-- C5 amended: whenever the arriving frame's key has no queue, the
enqueue path raises `KeyError` — which escapes `run()` and terminates
the capture thread — and mutates no shared state. -/
theorem capture_missing_key_spec (qlen : Nat) (st : DPState) (k : PortId)
    (pkt : Frame) (ts : Timestamp) (h : assocGet st.packet_queues k = none) :
    captureEnqueue qlen st k pkt ts = .error .keyError ∧
    dpStep qlen st (.arrival k pkt ts) = st := by
  constructor
  · simp [captureEnqueue, h]
  · simp [dpStep, captureEnqueue, h]

/-- Witness for the amended C5 at concrete inputs. -/
theorem capture_missing_key_spec_witness :
    assocGet (dpInit.packet_queues) (0, 1) = none ∧
    captureEnqueue 100 dpInit (0, 1) [1, 2] 0 = .error .keyError :=
  ⟨rfl, (capture_missing_key_spec 100 dpInit (0, 1) [1, 2] 0 rfl).1⟩

/-! ## C2 : bounded queue with oldest-drop, rx counts everything -/

/-- One successful capture-loop enqueue on a present key: the new queue
is the old one extended by the frame, truncated from the front to the
capacity. -/
theorem captureEnqueue_present (qlen : Nat) (hq : 0 < qlen) (st : DPState) (k : PortId)
    (q : List Entry) (pkt : Frame) (ts : Timestamp)
    (hget : assocGet st.packet_queues k = some q) (hlen : q.length ≤ qlen) :
    captureEnqueue qlen st k pkt ts = .ok { st with
      packet_queues := assocSet st.packet_queues k
        ((q ++ [(pkt, ts)]).drop (q.length + 1 - qlen)),
      rx_counters := assocSet st.rx_counters k (rxGet st.rx_counters k + 1) } := by
  simp only [captureEnqueue, hget]
  by_cases hc : qlen ≤ q.length
  · have hql : q.length = qlen := le_antisymm hlen hc
    cases q with
    | nil =>
      exfalso
      simp only [List.length_nil] at hql
      omega
    | cons a qtail =>
      simp only [if_pos hc]
      have hone : (a :: qtail).length + 1 - qlen = 1 := by
        simp only [List.length_cons] at hql ⊢
        omega
      rw [hone]
      rfl
  · simp only [if_neg hc]
    have hzero : q.length + 1 - qlen = 0 := by omega
    rw [hzero, List.drop_zero]

/-- Folding a burst of arrivals for one key over any state where that
key holds queue `q`: the final queue is `q ++ fs` truncated from the
front to the capacity, and the rx counter grows by the number of
frames, dropped ones included. -/
theorem arrival_fold (qlen : Nat) (hq : 0 < qlen) (k : PortId) (fs : List Entry) :
    ∀ (st : DPState) (q : List Entry),
      assocGet st.packet_queues k = some q → q.length ≤ qlen →
      assocGet (fs.foldl (fun s ft => dpStep qlen s (.arrival k ft.1 ft.2)) st).packet_queues k
          = some ((q ++ fs).drop (q.length + fs.length - qlen)) ∧
      rxGet (fs.foldl (fun s ft => dpStep qlen s (.arrival k ft.1 ft.2)) st).rx_counters k
          = rxGet st.rx_counters k + fs.length := by
  induction fs with
  | nil =>
    intro st q hget hlen
    refine ⟨?_, rfl⟩
    simpa [Nat.sub_eq_zero_of_le hlen] using hget
  | cons f fs ih =>
    intro st q hget hlen
    have hstep := captureEnqueue_present qlen hq st k q f.1 f.2 hget hlen
    have hF : dpStep qlen st (.arrival k f.1 f.2)
        = { st with
            packet_queues := assocSet st.packet_queues k
              ((q ++ [(f.1, f.2)]).drop (q.length + 1 - qlen)),
            rx_counters := assocSet st.rx_counters k (rxGet st.rx_counters k + 1) } := by
      simp only [dpStep, hstep]
    simp only [List.foldl_cons]
    rw [hF]
    have hlen' : ((q ++ [(f.1, f.2)]).drop (q.length + 1 - qlen)).length ≤ qlen := by
      simp only [List.length_drop, List.length_append, List.length_cons, List.length_nil]
      omega
    obtain ⟨h1, h2⟩ := ih
      { st with
        packet_queues := assocSet st.packet_queues k
          ((q ++ [(f.1, f.2)]).drop (q.length + 1 - qlen)),
        rx_counters := assocSet st.rx_counters k (rxGet st.rx_counters k + 1) }
      ((q ++ [(f.1, f.2)]).drop (q.length + 1 - qlen))
      (assocGet_assocSet_self _ _ _) hlen'
    constructor
    · rw [h1]
      congr 1
      have hd : q.length + 1 - qlen ≤ (q ++ [(f.1, f.2)]).length := by
        simp only [List.length_append, List.length_cons, List.length_nil]
        omega
      rw [← List.drop_append_of_le_length hd, List.drop_drop, List.append_assoc,
        List.singleton_append]
      congr 1
      simp only [List.length_drop, List.length_append, List.length_cons, List.length_nil]
      omega
    · simp only [rxGet, assocGet_assocSet_self, Option.getD_some] at h2
      simp only [rxGet]
      rw [h2]
      simp only [List.length_cons]
      omega

/-- C2: after registering `k` and enqueuing the frames `fs` with no
intervening dequeue/flush/removal, the queue holds exactly the most
recent `min fs.length qlen` frames in arrival order and the rx counter
equals `fs.length`, counting overflow-dropped frames. -/
theorem queue_overflow_spec (qlen : Nat) (k : PortId) (fs : List Entry) (hq : 0 < qlen) :
    assocGet (arrivalsRun qlen k fs).packet_queues k = some (fs.drop (fs.length - qlen)) ∧
    rxGet (arrivalsRun qlen k fs).rx_counters k = fs.length ∧
    (fs.drop (fs.length - qlen)).length = min fs.length qlen := by
  have h0 : assocGet (dpStep qlen dpInit (.portAdd k)).packet_queues k = some [] := by
    simp [dpStep, port_add, dpInit, assocGet, assocSet]
  obtain ⟨h1, h2⟩ := arrival_fold qlen hq k fs _ [] h0 (by simp)
  refine ⟨by simpa using h1, by simpa [dpStep, port_add, dpInit, rxGet, assocGet] using h2, ?_⟩
  simp only [List.length_drop]
  omega

/-- Witness for C2 at the spec's S3 scenario: `qlen = 3`, five frames
F1..F5, final queue `[F3, F4, F5]`, rx counter 5. -/
theorem queue_overflow_spec_witness :
    (0 : Nat) < 3 ∧
    assocGet (arrivalsRun 3 (0, 1)
        [([1], 1), ([2], 2), ([3], 3), ([4], 4), ([5], 5)]).packet_queues (0, 1)
      = some [([3], 3), ([4], 4), ([5], 5)] ∧
    rxGet (arrivalsRun 3 (0, 1)
        [([1], 1), ([2], 2), ([3], 3), ([4], 4), ([5], 5)]).rx_counters (0, 1) = 5 := by
  have h := queue_overflow_spec 3 (0, 1)
    [([1], 1), ([2], 2), ([3], 3), ([4], 4), ([5], 5)] (by decide)
  exact ⟨by decide, h.1.trans (by decide), h.2.1.trans (by decide)⟩

/-! ## C8 : registry/queue/counter invariant -/

theorem assocGet_isSome_iff {β : Type} (l : List (PortId × β)) (k : PortId) :
    (assocGet l k).isSome ↔ k ∈ l.map Prod.fst := by
  induction l with
  | nil => simp [assocGet]
  | cons kv rest ih =>
    by_cases h : kv.1 = k
    · simp [assocGet, h]
    · simp only [assocGet, if_neg h, List.map_cons, List.mem_cons, ih]
      constructor
      · exact fun hm => Or.inr hm
      · rintro (rfl | hm)
        · exact absurd rfl h
        · exact hm

theorem assocGet_mem {β : Type} {l : List (PortId × β)} {k : PortId} {v : β}
    (h : assocGet l k = some v) : (k, v) ∈ l := by
  induction l with
  | nil => simp [assocGet] at h
  | cons kv rest ih =>
    by_cases hk : kv.1 = k
    · simp only [assocGet, if_pos hk, Option.some.injEq] at h
      subst hk
      subst h
      exact List.mem_cons_self _ _
    · simp only [assocGet, if_neg hk] at h
      exact List.mem_cons_of_mem _ (ih h)

theorem mem_assocSet {β : Type} {kv : PortId × β} {l : List (PortId × β)} {k : PortId} {v : β}
    (h : kv ∈ assocSet l k v) : kv = (k, v) ∨ kv ∈ l := by
  induction l with
  | nil => simpa [assocSet] using h
  | cons kv' rest ih =>
    by_cases hk : kv'.1 = k
    · simp only [assocSet, if_pos hk, List.mem_cons] at h
      rcases h with h | h
      · exact Or.inl h
      · exact Or.inr (List.mem_cons_of_mem _ h)
    · simp only [assocSet, if_neg hk, List.mem_cons] at h
      rcases h with h | h
      · exact Or.inr (h ▸ List.mem_cons_self _ _)
      · rcases ih h with h' | h'
        · exact Or.inl h'
        · exact Or.inr (List.mem_cons_of_mem _ h')

theorem assocSet_keys {β : Type} (l : List (PortId × β)) (k : PortId) (v : β) :
    (assocSet l k v).map Prod.fst
      = if k ∈ l.map Prod.fst then l.map Prod.fst else l.map Prod.fst ++ [k] := by
  induction l with
  | nil => simp [assocSet]
  | cons kv rest ih =>
    by_cases hk : kv.1 = k
    · simp [assocSet, hk]
    · have hk' : ¬(k = kv.1) := fun h => hk h.symm
      simp only [assocSet, if_neg hk, List.map_cons, ih, List.mem_cons, hk', false_or]
      by_cases hm : k ∈ rest.map Prod.fst
      · simp [hm]
      · simp [hm]

theorem assocDel_sublist {β : Type} (l : List (PortId × β)) (k : PortId) :
    (assocDel l k).Sublist l := by
  induction l with
  | nil => simp [assocDel]
  | cons kv rest ih =>
    by_cases hk : kv.1 = k
    · simp only [assocDel, if_pos hk]
      exact List.sublist_cons_self kv rest
    · simp only [assocDel, if_neg hk]
      exact ih.cons₂ kv

theorem assocGet_assocDel_ne {β : Type} (l : List (PortId × β)) {k k' : PortId} (h : k' ≠ k) :
    assocGet (assocDel l k) k' = assocGet l k' := by
  induction l with
  | nil => simp [assocDel]
  | cons kv rest ih =>
    by_cases hk : kv.1 = k
    · subst hk
      simp [assocDel, assocGet, Ne.symm h]
    · simp only [assocDel, if_neg hk]
      by_cases hk' : kv.1 = k'
      · simp [assocGet, hk']
      · simp [assocGet, hk', ih]

theorem assocGet_assocDel_self {β : Type} (l : List (PortId × β)) (k : PortId)
    (hnd : (l.map Prod.fst).Nodup) : assocGet (assocDel l k) k = none := by
  induction l with
  | nil => simp [assocDel, assocGet]
  | cons kv rest ih =>
    simp only [List.map_cons, List.nodup_cons] at hnd
    by_cases hk : kv.1 = k
    · simp only [assocDel, if_pos hk]
      subst hk
      cases hres : assocGet rest kv.1 with
      | none => rfl
      | some v =>
        exact absurd ((assocGet_isSome_iff rest kv.1).mp (by simp [hres])) hnd.1
    · simp only [assocDel, if_neg hk, assocGet]
      exact ih hnd.2

theorem assocGet_mapVal {β γ : Type} (f : β → γ) (l : List (PortId × β)) (k : PortId) :
    assocGet (l.map (fun kv => (kv.1, f kv.2))) k = (assocGet l k).map f := by
  induction l with
  | nil => simp [assocGet]
  | cons kv rest ih =>
    by_cases hk : kv.1 = k
    · simp [assocGet, hk]
    · simp [assocGet, hk, ih]

theorem keyDel_sublist (l : List PortId) (k : PortId) : (keyDel l k).Sublist l := by
  induction l with
  | nil => simp [keyDel]
  | cons a rest ih =>
    by_cases ha : a = k
    · simp only [keyDel, if_pos ha]
      exact List.sublist_cons_self a rest
    · simp only [keyDel, if_neg ha]
      exact ih.cons₂ a

theorem mem_keyDel_ne {l : List PortId} {k k' : PortId} (h : k' ≠ k) :
    k' ∈ keyDel l k ↔ k' ∈ l := by
  induction l with
  | nil => simp [keyDel]
  | cons a rest ih =>
    by_cases ha : a = k
    · subst ha
      simp only [keyDel, if_pos rfl, List.mem_cons]
      constructor
      · exact Or.inr
      · rintro (rfl | hm)
        · exact absurd rfl h
        · exact hm
    · simp [keyDel, ha, ih]

theorem not_mem_keyDel_self {l : List PortId} (hnd : l.Nodup) (k : PortId) :
    k ∉ keyDel l k := by
  induction l with
  | nil => simp [keyDel]
  | cons a rest ih =>
    simp only [List.nodup_cons] at hnd
    by_cases ha : a = k
    · subst ha
      simp only [keyDel, if_pos rfl]
      exact hnd.1
    · simp only [keyDel, if_neg ha, List.mem_cons]
      rintro (rfl | hm)
      · exact ha rfl
      · exact ih hnd.2 hm

theorem keyInsert_nodup {l : List PortId} (hnd : l.Nodup) (k : PortId) :
    (keyInsert l k).Nodup := by
  unfold keyInsert
  split
  · exact hnd
  · rename_i hk
    simp [List.nodup_append, hnd, hk]

theorem mem_keyInsert_self (l : List PortId) (k : PortId) : k ∈ keyInsert l k := by
  unfold keyInsert
  split
  · assumption
  · simp

theorem mem_keyInsert_ne {l : List PortId} {k k' : PortId} (h : k' ≠ k) :
    k' ∈ keyInsert l k ↔ k' ∈ l := by
  unfold keyInsert
  split
  · exact Iff.rfl
  · simp [h]

/-- Every event step preserves the strengthened invariant. -/
theorem dpStep_preserves_inv (qlen : Nat) (st : DPState) (ev : DPEvent)
    (h : dpInvAux qlen st) : dpInvAux qlen (dpStep qlen st ev) := by
  obtain ⟨hqnd, hpnd, hmem, hlen, hrx⟩ := h
  cases ev with
  | portAdd k =>
    simp only [dpStep]
    unfold dpInvAux port_add
    dsimp only
    refine ⟨?_, keyInsert_nodup hpnd k, ?_, ?_, ?_⟩
    · rw [assocSet_keys]
      split
      · exact hqnd
      · rename_i hk
        simp [List.nodup_append, hqnd, hk]
    · intro k'
      by_cases hkk : k' = k
      · subst hkk
        simp only [assocGet_assocSet_self, Option.isSome_some, iff_true]
        exact mem_keyInsert_self st.ports k'
      · rw [mem_keyInsert_ne hkk, assocGet_assocSet_ne _ _ hkk]
        exact hmem k'
    · intro kv hkv
      rcases mem_assocSet hkv with h' | h'
      · subst h'
        simp
      · exact hlen kv h'
    · intro k' q' hq'
      by_cases hkk : k' = k
      · subst hkk
        rw [assocGet_assocSet_self] at hq'
        simp only [Option.some.injEq] at hq'
        subst hq'
        simp
      · rw [assocGet_assocSet_ne _ _ hkk] at hq'
        exact hrx k' q' hq'
  | portRemove k =>
    simp only [dpStep]
    by_cases hk : k ∈ st.ports
    · have heq : (port_remove st k).2
          = { st with
              ports := keyDel st.ports k,
              packet_queues := assocDel st.packet_queues k } := by
        simp [port_remove, hk]
      rw [heq]
      unfold dpInvAux
      dsimp only
      refine ⟨hqnd.sublist ((assocDel_sublist _ _).map _),
        hpnd.sublist (keyDel_sublist _ _), ?_, ?_, ?_⟩
      · intro k'
        by_cases hkk : k' = k
        · subst hkk
          simp [assocGet_assocDel_self _ _ hqnd, not_mem_keyDel_self hpnd k']
        · rw [mem_keyDel_ne hkk, assocGet_assocDel_ne _ hkk]
          exact hmem k'
      · intro kv hkv
        exact hlen kv ((assocDel_sublist _ _).subset hkv)
      · intro k' q' hq'
        by_cases hkk : k' = k
        · subst hkk
          rw [assocGet_assocDel_self _ _ hqnd] at hq'
          cases hq'
        · rw [assocGet_assocDel_ne _ hkk] at hq'
          exact hrx k' q' hq'
    · have heq : (port_remove st k).2 = st := by simp [port_remove, hk]
      rw [heq]
      exact ⟨hqnd, hpnd, hmem, hlen, hrx⟩
  | flushEv =>
    simp only [dpStep]
    unfold dpInvAux flush
    dsimp only
    have hkeys : (st.packet_queues.map (fun kv => (kv.1, ([] : List Entry)))).map Prod.fst
        = st.packet_queues.map Prod.fst := by
      rw [List.map_map]
      rfl
    refine ⟨?_, hpnd, ?_, ?_, ?_⟩
    · rw [hkeys]
      exact hqnd
    · intro k'
      rw [assocGet_mapVal (fun _ => ([] : List Entry)) st.packet_queues k', hmem k']
      cases assocGet st.packet_queues k' <;> simp
    · intro kv hkv
      simp only [List.mem_map] at hkv
      obtain ⟨kv', _, rfl⟩ := hkv
      simp
    · intro k' q' hq'
      rw [assocGet_mapVal (fun _ => ([] : List Entry)) st.packet_queues k'] at hq'
      cases hg : assocGet st.packet_queues k' with
      | none =>
        rw [hg] at hq'
        cases hq'
      | some q0 =>
        rw [hg] at hq'
        simp only [Option.map_some', Option.some.injEq] at hq'
        subst hq'
        simp
  | arrival k pkt ts =>
    cases hg : assocGet st.packet_queues k with
    | none =>
      have hce : captureEnqueue qlen st k pkt ts = .error .keyError := by
        simp [captureEnqueue, hg]
      simp only [dpStep, hce]
      exact ⟨hqnd, hpnd, hmem, hlen, hrx⟩
    | some q =>
      by_cases hc : qlen ≤ q.length
      · cases q with
        | nil =>
          have hce : captureEnqueue qlen st k pkt ts = .error .indexError := by
            simp only [captureEnqueue, hg]
            rw [if_pos hc]
          simp only [dpStep, hce]
          exact ⟨hqnd, hpnd, hmem, hlen, hrx⟩
        | cons a qtail =>
          have hce : captureEnqueue qlen st k pkt ts = .ok { st with
              packet_queues := assocSet st.packet_queues k (qtail ++ [(pkt, ts)]),
              rx_counters := assocSet st.rx_counters k (rxGet st.rx_counters k + 1) } := by
            simp only [captureEnqueue, hg]
            rw [if_pos hc]
          simp only [dpStep, hce]
          unfold dpInvAux
          dsimp only
          refine ⟨?_, hpnd, ?_, ?_, ?_⟩
          · rw [assocSet_keys, if_pos ((assocGet_isSome_iff _ _).mp (by simp [hg]))]
            exact hqnd
          · intro k'
            by_cases hkk : k' = k
            · subst hkk
              simp only [assocGet_assocSet_self, Option.isSome_some, iff_true]
              exact (hmem k').mpr (by simp [hg])
            · rw [assocGet_assocSet_ne _ _ hkk]
              exact hmem k'
          · intro kv hkv
            rcases mem_assocSet hkv with h' | h'
            · subst h'
              have hold := hlen (k, a :: qtail) (assocGet_mem hg)
              simp only [List.length_cons] at hold
              simp only [List.length_append, List.length_cons, List.length_nil]
              omega
            · exact hlen kv h'
          · intro k' q' hq'
            by_cases hkk : k' = k
            · subst hkk
              rw [assocGet_assocSet_self] at hq'
              simp only [Option.some.injEq] at hq'
              subst hq'
              have hrxk : rxGet (assocSet st.rx_counters k' (rxGet st.rx_counters k' + 1)) k'
                  = rxGet st.rx_counters k' + 1 := by
                simp [rxGet, assocGet_assocSet_self]
              rw [hrxk]
              have hold := hrx k' (a :: qtail) hg
              simp only [List.length_append, List.length_cons, List.length_nil] at *
              omega
            · rw [assocGet_assocSet_ne _ _ hkk] at hq'
              have hrxne : rxGet (assocSet st.rx_counters k (rxGet st.rx_counters k + 1)) k'
                  = rxGet st.rx_counters k' := by
                simp [rxGet, assocGet_assocSet_ne _ _ hkk]
              rw [hrxne]
              exact hrx k' q' hq'
      · have hce : captureEnqueue qlen st k pkt ts = .ok { st with
            packet_queues := assocSet st.packet_queues k (q ++ [(pkt, ts)]),
            rx_counters := assocSet st.rx_counters k (rxGet st.rx_counters k + 1) } := by
          simp only [captureEnqueue, hg]
          rw [if_neg hc]
        simp only [dpStep, hce]
        unfold dpInvAux
        dsimp only
        refine ⟨?_, hpnd, ?_, ?_, ?_⟩
        · rw [assocSet_keys, if_pos ((assocGet_isSome_iff _ _).mp (by simp [hg]))]
          exact hqnd
        · intro k'
          by_cases hkk : k' = k
          · subst hkk
            simp only [assocGet_assocSet_self, Option.isSome_some, iff_true]
            exact (hmem k').mpr (by simp [hg])
          · rw [assocGet_assocSet_ne _ _ hkk]
            exact hmem k'
        · intro kv hkv
          rcases mem_assocSet hkv with h' | h'
          · subst h'
            simp only [List.length_append, List.length_cons, List.length_nil]
            omega
          · exact hlen kv h'
        · intro k' q' hq'
          by_cases hkk : k' = k
          · subst hkk
            rw [assocGet_assocSet_self] at hq'
            simp only [Option.some.injEq] at hq'
            subst hq'
            have hrxk : rxGet (assocSet st.rx_counters k' (rxGet st.rx_counters k' + 1)) k'
                = rxGet st.rx_counters k' + 1 := by
              simp [rxGet, assocGet_assocSet_self]
            rw [hrxk]
            have hold := hrx k' q hg
            simp only [List.length_append, List.length_cons, List.length_nil] at *
            omega
          · rw [assocGet_assocSet_ne _ _ hkk] at hq'
            have hrxne : rxGet (assocSet st.rx_counters k (rxGet st.rx_counters k + 1)) k'
                = rxGet st.rx_counters k' := by
              simp [rxGet, assocGet_assocSet_ne _ _ hkk]
            rw [hrxne]
            exact hrx k' q' hq'

/-- The invariant holds along every run from the fresh state. -/
theorem dpRun_inv_fold (qlen : Nat) (evs : List DPEvent) :
    ∀ st : DPState, dpInvAux qlen st → dpInvAux qlen (evs.foldl (dpStep qlen) st) := by
  induction evs with
  | nil => exact fun st h => h
  | cons ev evs ih =>
    intro st h
    exact ih (dpStep qlen st ev) (dpStep_preserves_inv qlen st ev h)

/-- The fresh state satisfies the invariant. -/
theorem dpInit_inv (qlen : Nat) : dpInvAux qlen dpInit := by
  refine ⟨by simp [dpInit], by simp [dpInit], ?_, ?_, ?_⟩
  · intro k
    simp [dpInit, assocGet]
  · intro kv hkv
    simp [dpInit] at hkv
  · intro k q hq
    simp [dpInit, assocGet] at hq

/-- C8: after every finite sequence of `port_add`, `port_remove`,
`flush`, and capture-loop frame-arrival events at a fixed `qlen`, the
registry keys are exactly the keys with a queue, every queue length is
at most `qlen`, and every key's rx counter is at least its current
queue length. -/
theorem registry_queue_counter_invariant (qlen : Nat) (evs : List DPEvent) :
    (∀ k, k ∈ (dpRun qlen evs).ports ↔ (assocGet (dpRun qlen evs).packet_queues k).isSome) ∧
    (∀ kv ∈ (dpRun qlen evs).packet_queues, kv.2.length ≤ qlen) ∧
    (∀ k q, assocGet (dpRun qlen evs).packet_queues k = some q →
      q.length ≤ rxGet (dpRun qlen evs).rx_counters k) := by
  have h := dpRun_inv_fold qlen evs dpInit (dpInit_inv qlen)
  exact ⟨h.2.2.1, h.2.2.2.1, h.2.2.2.2⟩

/-- Witness for C8 at a concrete run. -/
theorem registry_queue_counter_invariant_witness :
    assocGet (dpRun 100 [DPEvent.portAdd (0, 1),
        DPEvent.arrival (0, 1) [7] 5]).packet_queues (0, 1) = some [([7], 5)] ∧
    [([7], 5)].length ≤ rxGet (dpRun 100 [DPEvent.portAdd (0, 1),
        DPEvent.arrival (0, 1) [7] 5]).rx_counters (0, 1) :=
  ⟨by decide,
    (registry_queue_counter_invariant 100
        [DPEvent.portAdd (0, 1), DPEvent.arrival (0, 1) [7] 5]).2.2
      (0, 1) [([7], 5)] (by decide)⟩

/-! ## C4 : poll timeout returns a structured `PollFailure` -/

theorem totalSize_popHead {qs : List (PortId × List Entry)} {k : PortId} {q : List Entry}
    (h : assocGet qs k = some q) (hne : q ≠ []) :
    totalSize (popHead qs k) + 1 = totalSize qs := by
  induction qs with
  | nil => simp [assocGet] at h
  | cons kv rest ih =>
    by_cases hk : kv.1 = k
    · simp only [assocGet, if_pos hk, Option.some.injEq] at h
      subst h
      simp only [popHead, if_pos hk, totalSize, List.map_cons, List.sum_cons]
      have h1 : 1 ≤ kv.2.length := List.length_pos.mpr hne
      simp only [List.length_drop]
      omega
    · simp only [assocGet, if_neg hk] at h
      simp only [popHead, if_neg hk, totalSize, List.map_cons, List.sum_cons]
      have := ih h
      simp only [totalSize] at this
      omega

theorem packetsStep_ok_some {device : Nat} {portArg : Option Nat}
    {qs : List (PortId × List Entry)} {x : Nat × Frame × Timestamp}
    {qs' : List (PortId × List Entry)}
    (h : packetsStep device portArg qs = .ok (some (x, qs'))) :
    ∃ rest, assocGet qs (device, x.1) = some ((x.2.1, x.2.2) :: rest) ∧
      qs' = popHead qs (device, x.1) := by
  have fetch : ∀ p, packetsFetch device p qs = .ok (some (x, qs')) →
      ∃ rest, assocGet qs (device, x.1) = some ((x.2.1, x.2.2) :: rest) ∧
        qs' = popHead qs (device, x.1) := by
    intro p hp
    unfold packetsFetch at hp
    cases hget : assocGet qs (device, p) with
    | none =>
      rw [hget] at hp
      simp at hp
    | some q =>
      cases q with
      | nil =>
        rw [hget] at hp
        simp at hp
      | cons e restq =>
        obtain ⟨pkt, t⟩ := e
        rw [hget] at hp
        simp only [Except.ok.injEq, Option.some.injEq, Prod.mk.injEq] at hp
        obtain ⟨h1, rfl⟩ := hp
        obtain ⟨rfl, rfl⟩ := h1
        exact ⟨restq, hget, rfl⟩
  rcases portArg with _ | p0
  · simp only [packetsStep] at h
    split at h
    · simp at h
    · rename_i p hp
      exact fetch p h
  · simp only [packetsStep] at h
    exact fetch p0 h

theorem packetsStep_size {device : Nat} {portArg : Option Nat}
    {qs : List (PortId × List Entry)} {x : Nat × Frame × Timestamp}
    {qs' : List (PortId × List Entry)}
    (h : packetsStep device portArg qs = .ok (some (x, qs'))) :
    totalSize qs' + 1 = totalSize qs := by
  obtain ⟨rest, hget, rfl⟩ := packetsStep_ok_some h
  exact totalSize_popHead hget (by simp)

theorem packetsDrain_size (device : Nat) (portArg : Option Nat) :
    ∀ (fuel : Nat) (qs drained qsf),
      packetsDrain device portArg fuel qs = .ok (drained, qsf) →
      totalSize qsf + drained.length = totalSize qs := by
  intro fuel
  induction fuel with
  | zero =>
    intro qs drained qsf h
    simp only [packetsDrain, Except.ok.injEq, Prod.mk.injEq] at h
    obtain ⟨rfl, rfl⟩ := h
    simp
  | succ fuel ih =>
    intro qs drained qsf h
    simp only [packetsDrain] at h
    split at h
    · cases h
    · simp only [Except.ok.injEq, Prod.mk.injEq] at h
      obtain ⟨rfl, rfl⟩ := h
      simp
    · rename_i x qs' hstep
      split at h
      · cases h
      · rename_i xs qsf' hrec
        simp only [Except.ok.injEq, Prod.mk.injEq] at h
        obtain ⟨rfl, rfl⟩ := h
        have h1 := ih qs' xs _ hrec
        have h2 := packetsStep_size hstep
        simp only [List.length_cons]
        omega

theorem grab_of_no_match (device : Nat) (portArg : Option Nat) (exp : Option ExpPkt)
    (filters : List (Frame → Bool)) :
    ∀ (fuel : Nat) (qs : List (PortId × List Entry)) (ring : List Frame) (cnt : Nat)
      (drained : List (Nat × Frame × Timestamp)) (qsf : List (PortId × List Entry)),
      packetsDrain device portArg fuel qs = .ok (drained, qsf) →
      (∀ x ∈ drained,
        (filters.all (fun f => f x.2.1) && expMatches exp x.2.1) = false) →
      grab device portArg exp filters fuel qs ring cnt
        = .ok (none, qsf, (drained.map (fun x => x.2.1)).foldl ringPush ring,
            cnt + drained.length) := by
  intro fuel
  induction fuel with
  | zero =>
    intro qs ring cnt drained qsf h _
    simp only [packetsDrain, Except.ok.injEq, Prod.mk.injEq] at h
    obtain ⟨rfl, rfl⟩ := h
    simp [grab]
  | succ fuel ih =>
    intro qs ring cnt drained qsf h hnm
    simp only [packetsDrain] at h
    simp only [grab]
    split at h
    · cases h
    · rename_i hstep
      rw [hstep]
      simp only [Except.ok.injEq, Prod.mk.injEq] at h
      obtain ⟨rfl, rfl⟩ := h
      simp
    · rename_i x qs' hstep
      rw [hstep]
      split at h
      · cases h
      · rename_i xs qsf' hrec
        simp only [Except.ok.injEq, Prod.mk.injEq] at h
        obtain ⟨rfl, rfl⟩ := h
        obtain ⟨p, pkt, t⟩ := x
        have hhead := hnm (p, pkt, t) (List.mem_cons_self _ _)
        have htail : ∀ x ∈ xs,
            (filters.all (fun f => f x.2.1) && expMatches exp x.2.1) = false :=
          fun x hx => hnm x (List.mem_cons_of_mem _ hx)
        simp only at hhead
        by_cases hf : filters.all (fun f => f pkt)
        · have hexp : expMatches exp pkt = false := by
            rw [hf] at hhead
            simpa using hhead
          simp only [hf, if_true, hexp, if_false, Bool.false_eq_true]
          rw [ih qs' (ringPush ring pkt) (cnt + 1) xs _ hrec htail]
          simp only [List.map_cons, List.foldl_cons, List.length_cons]
          have hcnt : cnt + 1 + xs.length = cnt + (xs.length + 1) := by omega
          rw [hcnt]
        · simp only [Bool.not_eq_true] at hf
          simp only [hf, Bool.false_eq_true, if_false]
          rw [ih qs' (ringPush ring pkt) (cnt + 1) xs _ hrec htail]
          simp only [List.map_cons, List.foldl_cons, List.length_cons]
          have hcnt : cnt + 1 + xs.length = cnt + (xs.length + 1) := by omega
          rw [hcnt]

theorem ringPush_spec (r : List Frame) (f : Frame)
    (hr : r.length ≤ POLL_MAX_RECENT_PACKETS) :
    ringPush r f = (r ++ [f]).drop (r.length + 1 - POLL_MAX_RECENT_PACKETS) ∧
    (ringPush r f).length ≤ POLL_MAX_RECENT_PACKETS := by
  simp only [ringPush, POLL_MAX_RECENT_PACKETS] at *
  by_cases hc : r.length < 3
  · rw [if_pos hc]
    constructor
    · have h0 : r.length + 1 - 3 = 0 := by omega
      rw [h0, List.drop_zero]
    · simp only [List.length_append, List.length_cons, List.length_nil]
      omega
  · rw [if_neg hc]
    have h3 : r.length = 3 := by omega
    constructor
    · cases r with
      | nil => simp at h3
      | cons a tl =>
        have h1 : (a :: tl).length + 1 - 3 = 1 := by
          simp only [List.length_cons] at h3 ⊢
          omega
        rw [h1]
        rfl
    · simp only [List.length_append, List.length_drop, List.length_cons, List.length_nil]
      omega

theorem ringPush_foldl (l : List Frame) :
    ∀ r : List Frame, r.length ≤ POLL_MAX_RECENT_PACKETS →
      l.foldl ringPush r
          = (r ++ l).drop (r.length + l.length - POLL_MAX_RECENT_PACKETS) ∧
      (l.foldl ringPush r).length ≤ POLL_MAX_RECENT_PACKETS := by
  induction l with
  | nil =>
    intro r hr
    refine ⟨?_, hr⟩
    simp only [List.foldl_nil, List.append_nil, List.length_nil, Nat.add_zero,
      Nat.sub_eq_zero_of_le hr, List.drop_zero]
  | cons f l ih =>
    intro r hr
    obtain ⟨hpush, hlen⟩ := ringPush_spec r f hr
    simp only [List.foldl_cons]
    obtain ⟨h1, h2⟩ := ih (ringPush r f) hlen
    refine ⟨?_, h2⟩
    rw [h1, hpush]
    have hd : r.length + 1 - POLL_MAX_RECENT_PACKETS ≤ (r ++ [f]).length := by
      simp only [List.length_append, List.length_cons, List.length_nil]
      omega
    rw [← List.drop_append_of_le_length hd, List.drop_drop, List.append_assoc,
      List.singleton_append]
    congr 1
    simp only [List.length_drop, List.length_append, List.length_cons, List.length_nil]
    omega

/-- C4: when the deciding `grab` pass drains every queued frame without
one passing all filters and the expected-packet match, `poll` returns
(does not raise) a `PollFailure` whose four tuple fields are all
absent, carrying the original expected packet, a ring of the (at most
3) most recently examined frames, and the count of all frames
examined; every examined frame was consumed from its queue. -/
theorem poll_timeout_spec (device : Nat) (portArg : Option Nat) (exp : Option ExpPkt)
    (filters : List (Frame → Bool)) (qs : List (PortId × List Entry))
    (drained : List (Nat × Frame × Timestamp)) (qsf : List (PortId × List Entry))
    (hdrain : packetsDrain device portArg (totalSize qs) qs = .ok (drained, qsf))
    (hnomatch : ∀ x ∈ drained,
      (filters.all (fun f => f x.2.1) && expMatches exp x.2.1) = false) :
    ∃ fobj : PollFailureS,
      poll device portArg exp filters qs = .ok (.failure fobj, qsf) ∧
      fobj.device = none ∧ fobj.port = none ∧ fobj.packet = none ∧ fobj.time = none ∧
      fobj.expected_packet = exp ∧
      fobj.recent_packets = (drained.map (fun x => x.2.1)).drop
        (drained.length - POLL_MAX_RECENT_PACKETS) ∧
      fobj.recent_packets.length ≤ POLL_MAX_RECENT_PACKETS ∧
      fobj.packet_count = drained.length ∧
      totalSize qsf + drained.length = totalSize qs := by
  have hgrab := grab_of_no_match device portArg exp filters (totalSize qs) qs [] 0
    drained qsf hdrain hnomatch
  have hring := ringPush_foldl (drained.map (fun x => x.2.1)) []
    (by simp [POLL_MAX_RECENT_PACKETS])
  refine ⟨mkPollFailure exp ((drained.map (fun x => x.2.1)).foldl ringPush [])
      (0 + drained.length), ?_, rfl, rfl, rfl, rfl, rfl, ?_, ?_, ?_, ?_⟩
  · unfold poll
    rw [hgrab]
  · show (drained.map (fun x => x.2.1)).foldl ringPush [] = _
    rw [hring.1]
    simp
  · exact hring.2
  · show 0 + drained.length = drained.length
    omega
  · exact packetsDrain_size device portArg (totalSize qs) qs drained qsf hdrain

/-- Witness for C4 at a concrete state: two queued frames, neither
matching the expected bytes; the failure carries both in the ring and a
count of 2, and both queues end up empty. -/
theorem poll_timeout_spec_witness :
    ∃ fobj : PollFailureS,
      poll 0 none (some (.rawExp [9])) []
          [((0, 1), [([1], 5)]), ((0, 2), [([2], 3)])]
        = .ok (.failure fobj, [((0, 1), []), ((0, 2), [])]) ∧
      fobj.packet_count = 2 := by
  obtain ⟨fobj, h1, _, _, _, _, _, _, _, h9, _⟩ :=
    poll_timeout_spec 0 none (some (.rawExp [9])) []
      [((0, 1), [([1], 5)]), ((0, 2), [([2], 3)])]
      [(2, [2], 3), (1, [1], 5)] [((0, 1), []), ((0, 2), [])]
      (by rfl) (by decide)
  exact ⟨fobj, h1, by rw [h9]; rfl⟩

/-! ## C3 : multi-port ordering and the oldest-port sentinel -/

theorem oldestAux_eq_none (device : Nat) (qs : List (PortId × List Entry)) :
    ∀ acc, oldestAux device acc qs = none ↔
      (acc = none ∧ ∀ kv ∈ qs, kv.1.1 = device → kv.2 = []) := by
  induction qs with
  | nil =>
    intro acc
    simp [oldestAux]
  | cons kv rest ih =>
    obtain ⟨⟨kd, kp⟩, kq⟩ := kv
    intro acc
    simp only [oldestAux]
    by_cases hd : kd = device
    · cases kq with
      | nil =>
        rw [if_pos hd, ih]
        constructor
        · rintro ⟨ha, hall⟩
          refine ⟨ha, ?_⟩
          intro kv hkv hdev
          rcases List.mem_cons.mp hkv with rfl | hm
          · rfl
          · exact hall kv hm hdev
        · rintro ⟨ha, hall⟩
          exact ⟨ha, fun kv hm hdev => hall kv (List.mem_cons_of_mem _ hm) hdev⟩
      | cons e tl =>
        rw [if_pos hd]
        cases acc with
        | none =>
          rw [ih]
          constructor
          · rintro ⟨hsome, _⟩
            cases hsome
          · rintro ⟨_, hall⟩
            have h0 := hall ((kd, kp), e :: tl) (List.mem_cons_self _ _) hd
            simp at h0
        | some pt =>
          dsimp only
          by_cases hlt : e.2 < pt.2
          · rw [if_pos hlt, ih]
            constructor
            · rintro ⟨hsome, _⟩
              cases hsome
            · rintro ⟨hacc, _⟩
              cases hacc
          · rw [if_neg hlt, ih]
            constructor
            · rintro ⟨hsome, _⟩
              cases hsome
            · rintro ⟨hacc, _⟩
              cases hacc
    · rw [if_neg hd, ih]
      constructor
      · rintro ⟨ha, hall⟩
        refine ⟨ha, ?_⟩
        intro kv hkv hdev
        rcases List.mem_cons.mp hkv with rfl | hm
        · exact absurd hdev hd
        · exact hall kv hm hdev
      · rintro ⟨ha, hall⟩
        exact ⟨ha, fun kv hm hdev => hall kv (List.mem_cons_of_mem _ hm) hdev⟩

theorem oldestAux_some (device : Nat) (qs : List (PortId × List Entry)) :
    ∀ acc p t, oldestAux device acc qs = some (p, t) →
      (acc = some (p, t) ∨
        ∃ kv ∈ qs, kv.1.1 = device ∧ kv.1.2 = p ∧
          ∃ pkt rest, kv.2 = (pkt, t) :: rest) ∧
      (∀ kv ∈ qs, kv.1.1 = device →
        ∀ pkt' t' rest', kv.2 = (pkt', t') :: rest' → t ≤ t') ∧
      (∀ p₀ t₀, acc = some (p₀, t₀) → t ≤ t₀) := by
  induction qs with
  | nil =>
    intro acc p t h
    simp only [oldestAux] at h
    refine ⟨Or.inl h, by simp, ?_⟩
    intro p₀ t₀ h₀
    rw [h₀] at h
    simp only [Option.some.injEq, Prod.mk.injEq] at h
    exact le_of_eq h.2.symm
  | cons kv rest ih =>
    obtain ⟨⟨kd, kp⟩, kq⟩ := kv
    intro acc p t h
    simp only [oldestAux] at h
    by_cases hd : kd = device
    · rw [if_pos hd] at h
      cases kq with
      | nil =>
        obtain ⟨hmem, hmin, haccb⟩ := ih acc p t h
        refine ⟨?_, ?_, haccb⟩
        · rcases hmem with h' | ⟨kv, hkv, hdev, hport, pkt, rest2, hq⟩
          · exact Or.inl h'
          · exact Or.inr ⟨kv, List.mem_cons_of_mem _ hkv, hdev, hport, pkt, rest2, hq⟩
        · intro kv hkv hdev pkt' t' rest' hq
          rcases List.mem_cons.mp hkv with rfl | hm
          · cases hq
          · exact hmin kv hm hdev pkt' t' rest' hq
      | cons e tl =>
        obtain ⟨epkt, et⟩ := e
        cases acc with
        | none =>
          obtain ⟨hmem, hmin, haccb⟩ := ih (some (kp, et)) p t h
          refine ⟨?_, ?_, ?_⟩
          · rcases hmem with h' | ⟨kv, hkv, hdev, hport, pkt, rest2, hq⟩
            · simp only [Option.some.injEq, Prod.mk.injEq] at h'
              obtain ⟨rfl, rfl⟩ := h'
              exact Or.inr ⟨((kd, kp), (epkt, et) :: tl), List.mem_cons_self _ _,
                hd, rfl, epkt, tl, rfl⟩
            · exact Or.inr ⟨kv, List.mem_cons_of_mem _ hkv, hdev, hport, pkt, rest2, hq⟩
          · intro kv hkv hdev pkt' t' rest' hq
            rcases List.mem_cons.mp hkv with rfl | hm
            · simp only [List.cons.injEq, Prod.mk.injEq] at hq
              obtain ⟨⟨rfl, rfl⟩, rfl⟩ := hq
              exact haccb kp et rfl
            · exact hmin kv hm hdev pkt' t' rest' hq
          · intro p₀ t₀ h₀
            cases h₀
        | some pt =>
          obtain ⟨p1, t1⟩ := pt
          dsimp only at h
          by_cases hlt : et < t1
          · rw [if_pos hlt] at h
            obtain ⟨hmem, hmin, haccb⟩ := ih (some (kp, et)) p t h
            refine ⟨?_, ?_, ?_⟩
            · rcases hmem with h' | ⟨kv, hkv, hdev, hport, pkt, rest2, hq⟩
              · simp only [Option.some.injEq, Prod.mk.injEq] at h'
                obtain ⟨rfl, rfl⟩ := h'
                exact Or.inr ⟨((kd, kp), (epkt, et) :: tl), List.mem_cons_self _ _,
                  hd, rfl, epkt, tl, rfl⟩
              · exact Or.inr ⟨kv, List.mem_cons_of_mem _ hkv, hdev, hport, pkt, rest2, hq⟩
            · intro kv hkv hdev pkt' t' rest' hq
              rcases List.mem_cons.mp hkv with rfl | hm
              · simp only [List.cons.injEq, Prod.mk.injEq] at hq
                obtain ⟨⟨rfl, rfl⟩, rfl⟩ := hq
                exact haccb kp et rfl
              · exact hmin kv hm hdev pkt' t' rest' hq
            · intro p₀ t₀ h₀
              simp only [Option.some.injEq, Prod.mk.injEq] at h₀
              obtain ⟨rfl, rfl⟩ := h₀
              exact le_of_lt (lt_of_le_of_lt (haccb kp et rfl) hlt)
          · rw [if_neg hlt] at h
            obtain ⟨hmem, hmin, haccb⟩ := ih (some (p1, t1)) p t h
            refine ⟨?_, ?_, haccb⟩
            · rcases hmem with h' | ⟨kv, hkv, hdev, hport, pkt, rest2, hq⟩
              · exact Or.inl h'
              · exact Or.inr ⟨kv, List.mem_cons_of_mem _ hkv, hdev, hport, pkt, rest2, hq⟩
            · intro kv hkv hdev pkt' t' rest' hq
              rcases List.mem_cons.mp hkv with rfl | hm
              · simp only [List.cons.injEq, Prod.mk.injEq] at hq
                obtain ⟨⟨rfl, rfl⟩, rfl⟩ := hq
                exact le_trans (haccb p1 t1 rfl) (not_lt.mp hlt)
              · exact hmin kv hm hdev pkt' t' rest' hq
    · rw [if_neg hd] at h
      obtain ⟨hmem, hmin, haccb⟩ := ih acc p t h
      refine ⟨?_, ?_, haccb⟩
      · rcases hmem with h' | ⟨kv, hkv, hdev, hport, pkt, rest2, hq⟩
        · exact Or.inl h'
        · exact Or.inr ⟨kv, List.mem_cons_of_mem _ hkv, hdev, hport, pkt, rest2, hq⟩
      · intro kv hkv hdev pkt' t' rest' hq
        rcases List.mem_cons.mp hkv with rfl | hm
        · exact absurd hdev hd
        · exact hmin kv hm hdev pkt' t' rest' hq

theorem assocGet_of_mem_nodup {β : Type} {qs : List (PortId × β)}
    (hnd : (qs.map Prod.fst).Nodup) {kv : PortId × β} (h : kv ∈ qs) :
    assocGet qs kv.1 = some kv.2 := by
  induction qs with
  | nil => simp at h
  | cons kv' rest ih =>
    simp only [List.map_cons, List.nodup_cons] at hnd
    rcases List.mem_cons.mp h with rfl | hmem
    · simp [assocGet]
    · have hne : kv'.1 ≠ kv.1 := by
        intro he
        exact hnd.1 (he ▸ List.mem_map.mpr ⟨kv, hmem, rfl⟩)
      simp only [assocGet, if_neg hne]
      exact ih hnd.2 hmem

theorem popHead_keys (qs : List (PortId × List Entry)) (k : PortId) :
    (popHead qs k).map Prod.fst = qs.map Prod.fst := by
  induction qs with
  | nil => simp [popHead]
  | cons kv rest ih =>
    by_cases hk : kv.1 = k
    · simp [popHead, hk]
    · simp [popHead, hk, ih]

theorem mem_popHead {qs : List (PortId × List Entry)} {k : PortId}
    {kv : PortId × List Entry} (h : kv ∈ popHead qs k) :
    kv ∈ qs ∨ ∃ kv' ∈ qs, kv'.1 = k ∧ kv = (kv'.1, kv'.2.drop 1) := by
  induction qs with
  | nil => simp [popHead] at h
  | cons kv0 rest ih =>
    by_cases hk : kv0.1 = k
    · simp only [popHead, if_pos hk, List.mem_cons] at h
      rcases h with rfl | h
      · exact Or.inr ⟨kv0, List.mem_cons_self _ _, hk, rfl⟩
      · exact Or.inl (List.mem_cons_of_mem _ h)
    · simp only [popHead, if_neg hk, List.mem_cons] at h
      rcases h with rfl | h
      · exact Or.inl (List.mem_cons_self _ _)
      · rcases ih h with h' | ⟨kv', hkv', hk', he⟩
        · exact Or.inl (List.mem_cons_of_mem _ h')
        · exact Or.inr ⟨kv', List.mem_cons_of_mem _ hkv', hk', he⟩

theorem queueSorted_popHead {device : Nat} {qs : List (PortId × List Entry)}
    (hs : queueSorted device qs) (k : PortId) :
    queueSorted device (popHead qs k) := by
  intro kv hkv hdev
  rcases mem_popHead hkv with horig | ⟨kv', hkv', _, rfl⟩
  · exact hs kv horig hdev
  · have := hs kv' hkv' hdev
    rw [List.drop_one]
    exact this.tail

theorem headLB_popHead {device : Nat} {t : Timestamp} {qs : List (PortId × List Entry)}
    {k : PortId} (hs : queueSorted device qs) (hlb : headLB device t qs) :
    headLB device t (popHead qs k) := by
  intro kv hkv hdev pkt' t' rest' hq
  rcases mem_popHead hkv with horig | ⟨kv', hkv', _, rfl⟩
  · exact hlb kv horig hdev pkt' t' rest' hq
  · cases hkq : kv'.2 with
    | nil =>
      rw [hkq] at hq
      simp at hq
    | cons e0 tl =>
      rw [hkq] at hq
      simp only [List.drop_one, List.tail_cons] at hq
      subst hq
      have hchain := hs kv' hkv' hdev
      rw [hkq] at hchain
      have h01 : e0.2 ≤ t' := (List.chain'_cons.mp hchain).1
      have hlb0 := hlb kv' hkv' hdev e0.1 e0.2 ((pkt', t') :: rest') (by rw [hkq])
      exact le_trans hlb0 h01

theorem packetsFetch_ok_some {device p : Nat} {qs : List (PortId × List Entry)}
    {x : Nat × Frame × Timestamp} {qs' : List (PortId × List Entry)}
    (h : packetsFetch device p qs = .ok (some (x, qs'))) :
    x.1 = p ∧ ∃ rest, assocGet qs (device, p) = some ((x.2.1, x.2.2) :: rest) ∧
      qs' = popHead qs (device, p) := by
  unfold packetsFetch at h
  cases hget : assocGet qs (device, p) with
  | none =>
    rw [hget] at h
    simp at h
  | some q =>
    cases q with
    | nil =>
      rw [hget] at h
      simp at h
    | cons e restq =>
      obtain ⟨pkt, t⟩ := e
      rw [hget] at h
      simp only [Except.ok.injEq, Option.some.injEq, Prod.mk.injEq] at h
      obtain ⟨h1, rfl⟩ := h
      obtain ⟨rfl, rfl⟩ := h1
      exact ⟨rfl, restq, by simp [hget], rfl⟩

theorem packetsStep_none_oldest {device : Nat} {qs : List (PortId × List Entry)}
    {x : Nat × Frame × Timestamp} {qs' : List (PortId × List Entry)}
    (h : packetsStep device none qs = .ok (some (x, qs'))) :
    oldest_port_number device qs = some x.1 := by
  simp only [packetsStep] at h
  split at h
  · simp at h
  · rename_i p hp
    rw [hp, (packetsFetch_ok_some h).1]

theorem packetsDrain_sorted_aux (device : Nat) :
    ∀ (fuel : Nat) (qs : List (PortId × List Entry)),
      (qs.map Prod.fst).Nodup → queueSorted device qs →
      ∀ drained qsf, packetsDrain device none fuel qs = .ok (drained, qsf) →
        List.Chain' (fun a b => a.2.2 ≤ b.2.2) drained ∧
        (∀ t, headLB device t qs → ∀ x ∈ drained, t ≤ x.2.2) := by
  intro fuel
  induction fuel with
  | zero =>
    intro qs _ _ drained qsf h
    simp only [packetsDrain, Except.ok.injEq, Prod.mk.injEq] at h
    obtain ⟨rfl, rfl⟩ := h
    exact ⟨List.chain'_nil, by simp⟩
  | succ fuel ih =>
    intro qs hnd hs drained qsf h
    simp only [packetsDrain] at h
    split at h
    · cases h
    · simp only [Except.ok.injEq, Prod.mk.injEq] at h
      obtain ⟨rfl, rfl⟩ := h
      exact ⟨List.chain'_nil, by simp⟩
    · rename_i x qs2 hstep
      split at h
      · cases h
      · rename_i xs qsf2 hrec
        simp only [Except.ok.injEq, Prod.mk.injEq] at h
        obtain ⟨rfl, rfl⟩ := h
        obtain ⟨restq, hget, rfl⟩ := packetsStep_ok_some hstep
        have hold := packetsStep_none_oldest hstep
        -- the popped head has the minimal timestamp among the device's heads
        have hlbq : headLB device x.2.2 qs := by
          unfold oldest_port_number at hold
          cases ho : oldestAux device none qs with
          | none => rw [ho] at hold; cases hold
          | some pt =>
            obtain ⟨p', tmin⟩ := pt
            rw [ho] at hold
            simp only [Option.map_some', Option.some.injEq] at hold
            obtain ⟨hmem, hmin, _⟩ := oldestAux_some device qs none p' tmin ho
            rcases hmem with h' | ⟨kv, hkv, hdev, hport, pkt0, rest0, hq0⟩
            · cases h'
            · have hkey : kv.1 = (device, x.1) := by
                rcases kv with ⟨⟨a, b⟩, q0⟩
                simp only at hdev hport
                rw [hdev, hport, hold]
              have hget2 := assocGet_of_mem_nodup hnd hkv
              rw [hkey, hq0] at hget2
              rw [hget] at hget2
              simp only [Option.some.injEq, List.cons.injEq, Prod.mk.injEq] at hget2
              obtain ⟨⟨_, ht⟩, _⟩ := hget2
              rw [← ht] at hmin
              exact fun kv2 hkv2 hdev2 => hmin kv2 hkv2 hdev2
        have hnd2 : ((popHead qs (device, x.1)).map Prod.fst).Nodup := by
          rw [popHead_keys]
          exact hnd
        have hs2 := queueSorted_popHead hs (device, x.1)
        obtain ⟨hchain, hbound⟩ := ih (popHead qs (device, x.1)) hnd2 hs2 xs _ hrec
        have hlb2 := headLB_popHead hs hlbq (k := (device, x.1))
        constructor
        · rw [List.chain'_cons']
          refine ⟨?_, hchain⟩
          intro y hy
          exact hbound x.2.2 hlb2 y (List.mem_of_mem_head? hy)
        · intro t0 hlb0 y hy
          rcases List.mem_cons.mp hy with rfl | hmem2
          · exact hlb0 ((device, y.1), (y.2.1, y.2.2) :: restq) (assocGet_mem hget)
              rfl y.2.1 y.2.2 restq rfl
          · exact hbound t0 (headLB_popHead hs hlb0) y hmem2

/-- C3: with nondecreasing timestamps inside each queue (and distinct
dict keys), `oldest_port_number` returns `None` exactly when every
queue of the device is empty, a returned port always names a queue head
whose timestamp bounds every head of the device from below, and the
multi-port drain (`packets` with no `port` argument, hence multi-port
`poll`) yields frames in globally nondecreasing timestamp order. -/
theorem multiport_order_spec (device : Nat) (qs : List (PortId × List Entry))
    (hnd : (qs.map Prod.fst).Nodup) (hsorted : queueSorted device qs) :
    (oldest_port_number device qs = none ↔ ∀ kv ∈ qs, kv.1.1 = device → kv.2 = []) ∧
    (∀ p, oldest_port_number device qs = some p →
      ∃ pkt t rest, assocGet qs (device, p) = some ((pkt, t) :: rest) ∧
        headLB device t qs) ∧
    (∀ drained qsf,
      packetsDrain device none (totalSize qs) qs = .ok (drained, qsf) →
      List.Chain' (fun a b => a.2.2 ≤ b.2.2) drained) := by
  refine ⟨?_, ?_, ?_⟩
  · unfold oldest_port_number
    rw [Option.map_eq_none']
    rw [oldestAux_eq_none]
    simp
  · intro p hp
    unfold oldest_port_number at hp
    cases ho : oldestAux device none qs with
    | none =>
      rw [ho] at hp
      cases hp
    | some pt =>
      obtain ⟨p', t⟩ := pt
      rw [ho] at hp
      simp only [Option.map_some', Option.some.injEq] at hp
      subst hp
      obtain ⟨hmem, hmin, _⟩ := oldestAux_some device qs none p' t ho
      rcases hmem with h' | ⟨kv, hkv, hdev, hport, pkt, rest2, hq⟩
      · cases h'
      · have hkey : kv.1 = (device, p') := Prod.ext hdev hport
        have hget := assocGet_of_mem_nodup hnd hkv
        rw [hkey, hq] at hget
        exact ⟨pkt, t, rest2, hget, hmin⟩
  · intro drained qsf h
    exact (packetsDrain_sorted_aux device (totalSize qs) qs hnd hsorted drained qsf h).1

/-- Witness for C3 at the spec's S4-style scenario: port 1 holds a
frame at t=10, port 2 one at t=5; the multi-port drain yields port 2
first and the timestamps come out nondecreasing. -/
theorem multiport_order_spec_witness :
    packetsDrain 0 none
        (totalSize [((0, 1), [([1], 10)]), ((0, 2), [([2], 5)])])
        [((0, 1), [([1], 10)]), ((0, 2), [([2], 5)])]
      = .ok ([(2, [2], 5), (1, [1], 10)], [((0, 1), []), ((0, 2), [])]) ∧
    List.Chain' (fun a b => a.2.2 ≤ b.2.2)
      [((2 : Nat), (([2], 5) : Frame × Timestamp)), (1, ([1], 10))] := by
  constructor
  · rfl
  · exact (multiport_order_spec 0 [((0, 1), [([1], 10)]), ((0, 2), [([2], 5)])]
      (by decide)
      (by
        intro kv hkv hdev
        simp only [List.mem_cons, List.not_mem_nil, or_false] at hkv
        rcases hkv with rfl | rfl <;> exact List.chain'_singleton _)).2.2
      [(2, [2], 5), (1, [1], 10)] [((0, 1), []), ((0, 2), [])] (by rfl)

/-! ## C7 : virtual-transport `recv` dispatch -/

/-- C7 counterexample: a message of type `PORT_ADD` (0) addressed to a
registered port makes `recv` fail its `msg_type == MSG_TYPE_PACKET_OUT`
assertion instead of returning the no-data sentinel. -/
theorem nnRecv_other_type_asserts :
    nnRecv 0 ⟨[1], [], []⟩ [0, 0, 0, 0, 1, 0, 0, 0, 0, 0, 0, 0] 0
      = .error .assertionError := rfl

/-- C7 amended: after decoding the header, `recv` returns the no-data
sentinel for any message addressed to an unregistered port; for a
registered port it dispatches an INFO_REP message into the caches (a
hardware-address reply caches the payload bytes on success and `None`
on failure) and returns the sentinel when the dispatch succeeds,
returns `(device, port, frame, timestamp)` for a PACKET_OUT message
whose payload length equals the header's length field, and fails an
assertion on every other message type rather than returning the
sentinel. -/
theorem nnRecv_dispatch (device : Nat) (st : NNState) (msg : List Nat) (now : Timestamp)
    (msg_type port_number more : Int) (r1 r2 body : List Nat)
    (h1 : decodeI32LE msg = some (msg_type, r1))
    (h2 : decodeI32LE r1 = some (port_number, r2))
    (h3 : decodeI32LE r2 = some (more, body)) :
    (port_number ∉ st.ports → nnRecv device st msg now = .ok (none, st)) ∧
    (port_number ∈ st.ports → msg_type = MSG_TYPE_INFO_REP →
      nnRecv device st msg now
        = (handle_info_rep port_number more body st).map (fun st' => (none, st'))) ∧
    (port_number ∈ st.ports → msg_type = MSG_TYPE_INFO_REP →
      more = MSG_INFO_TYPE_HWADDR →
      ∀ status rest, decodeI32LE body = some (status, rest) →
        nnRecv device st msg now = .ok (none,
          { st with
            mac_addresses := assocSet st.mac_addresses port_number
              (if status = MSG_INFO_STATUS_SUCCESS then some rest else none) })) ∧
    (port_number ∈ st.ports → msg_type = MSG_TYPE_PACKET_OUT →
      (body.length : Int) = more →
      nnRecv device st msg now = .ok (some (device, port_number, body, now), st)) ∧
    (port_number ∈ st.ports → msg_type ≠ MSG_TYPE_INFO_REP →
      msg_type ≠ MSG_TYPE_PACKET_OUT →
      nnRecv device st msg now = .error .assertionError) := by
  have hbase : nnRecv device st msg now
      = (if port_number ∉ st.ports then .ok (none, st)
        else if msg_type = MSG_TYPE_INFO_REP then
          (handle_info_rep port_number more body st).map (fun st' => (none, st'))
        else if msg_type ≠ MSG_TYPE_PACKET_OUT then .error .assertionError
        else if (body.length : Int) ≠ more then .error .assertionError
        else .ok (some (device, port_number, body, now), st)) := by
    unfold nnRecv
    rw [h1]
    dsimp only
    rw [h2]
    dsimp only
    rw [h3]
  refine ⟨?_, ?_, ?_, ?_, ?_⟩
  · intro hnp
    rw [hbase, if_pos hnp]
  · intro hp ht
    rw [hbase, if_neg (fun hc => hc hp), if_pos ht]
  · intro hp ht hhw status rest hsr
    have hrep : handle_info_rep port_number more body st
        = .ok { st with
            mac_addresses := assocSet st.mac_addresses port_number
              (if status = MSG_INFO_STATUS_SUCCESS then some rest else none) } := by
      unfold handle_info_rep
      rw [hsr]
      dsimp only
      rw [if_pos hhw]
      by_cases hst : status = MSG_INFO_STATUS_SUCCESS
      · simp [hst]
      · simp [hst]
    rw [hbase, if_neg (fun hc => hc hp), if_pos ht, hrep]
    rfl
  · intro hp ht hlen
    have hni : ¬ msg_type = MSG_TYPE_INFO_REP := by
      rw [ht]
      decide
    rw [hbase, if_neg (fun hc => hc hp), if_neg hni, if_neg (not_not.mpr ht),
      if_neg (not_not.mpr hlen)]
  · intro hp hni hnp
    rw [hbase, if_neg (fun hc => hc hp), if_neg hni, if_pos hnp]

/-- Witness for the amended C7: a well-formed PACKET_OUT message for
registered port 1 with a 2-byte payload yields the frame tuple. -/
theorem nnRecv_dispatch_witness :
    nnRecv 0 ⟨[1], [], []⟩ [4, 0, 0, 0, 1, 0, 0, 0, 2, 0, 0, 0, 9, 8] 0
      = .ok (some (0, 1, [9, 8], 0), ⟨[1], [], []⟩) := by
  have h := nnRecv_dispatch 0 ⟨[1], [], []⟩
    [4, 0, 0, 0, 1, 0, 0, 0, 2, 0, 0, 0, 9, 8] 0
    4 1 2 [1, 0, 0, 0, 2, 0, 0, 0, 9, 8] [2, 0, 0, 0, 9, 8] [9, 8]
    (by rfl) (by rfl) (by rfl)
  exact h.2.2.2.1 (by decide) (by decide) (by decide)
